import Mathlib

/-!
A verification development for the multiple-shooting iterative LQR solver
of this repository (class `IterativeLQR`: forward pass, line search,
stopping test, backward pass with constraint handling and regularization
retry, constraint-to-go accumulator, default costs).

Real arithmetic is modelled by exact rationals.  The Eigen decompositions
and the casadi function oracle are external collaborators: their outputs
enter the embedding as explicit data (matrices, pivot data, solvability
flags), while the solver logic itself is transcribed from the sources.
-/

open Matrix

namespace IterativeLQR

/-- The fields of `ForwardPassResult` read by the stopping test and by the
line search (cost, constraint violation, defect norm, merit value, merit
directional derivative, accumulated step length). -/
structure ForwardPassResult where
  cost : ℚ
  constraint_violation : ℚ
  defect_norm : ℚ
  merit : ℚ
  merit_der : ℚ
  step_length : ℚ

/-- `IterativeLQR::should_stop`: a feasibility gate on constraint
violation and defect norm (threshold 1e-6), then exit when the normalized
merit slope exceeds -1e-9 or when the normalized step length is below
1e-9.  `utrj_norm` stands for `_utrj.norm()`.  (Division is the total
division of `ℚ`; the faithfulness hypotheses of the theorems below keep
the denominators away from 0, where IEEE doubles behave differently.) -/
def should_stop (fp : ForwardPassResult) (utrj_norm : ℚ) : Bool :=
  if fp.constraint_violation > 1/1000000 then false
  else if fp.defect_norm > 1/1000000 then false
  else if fp.merit_der / fp.merit > -(1/1000000000) then true
  else if fp.step_length / utrj_norm < 1/1000000000 then true
  else false

/-- The concrete stopping-test input of the counterexample: feasible
(zero defect and violation), merit 1, positive merit slope 1, step
length 1. -/
def fp_cex : ForwardPassResult := ⟨0, 0, 0, 1, 1, 1⟩

/-- The concrete stopping-test input of the witness: feasible, merit 1,
merit slope -1, step length 1. -/
def fp_wit : ForwardPassResult := ⟨0, 0, 0, 1, -1, 1⟩

/-- The exception thrown by `backward_pass_iter` when the KKT solution is
not finite (`struct HessianIndefinite : std::runtime_error`). -/
structure HessianIndefinite

/-- `IterativeLQR::increase_regularization`: reset the regularization to 1
when it fell below 1e-6, multiply by the growth factor, and floor the
result at `_hxx_reg_base`. -/
def increase_regularization (growth base reg : ℚ) : ℚ :=
  let r0 := if reg < 1/1000000 then (1 : ℚ) else reg
  let r1 := r0 * growth
  if r1 < base then base else r1

/-- One backward-pass stage, abstracted over the finiteness of its KKT
solution: `solveOk i reg` says that the stage-`i` KKT solve performed
with regularization `reg` produced an all-finite `u_lam`
(`u_lam.allFinite() && !u_lam.hasNaN()`); otherwise the stage throws
`HessianIndefinite`. -/
def backward_pass_iter_kkt (solveOk : ℕ → ℚ → Bool) (i : ℕ) (reg : ℚ) :
    Except HessianIndefinite Unit :=
  if solveOk i reg then Except.ok () else Except.error ⟨⟩

/-- Stage order of the backward sweep: `for(int i = N-1; i >= 0; i--)`. -/
def stagesDown (N : ℕ) : List ℕ := (List.range N).reverse

/-- The stage loop of `backward_pass`: run the stages in order, stopping
at the first stage that throws. -/
def backward_pass_stages (solveOk : ℕ → ℚ → Bool) (reg : ℚ) :
    List ℕ → Except HessianIndefinite Unit
  | [] => Except.ok ()
  | i :: rest =>
    match backward_pass_iter_kkt solveOk i reg with
    | Except.ok _ => backward_pass_stages solveOk reg rest
    | Except.error e => Except.error e

/-- The retry structure of `IterativeLQR::backward_pass`: a thrown
`HessianIndefinite` is caught, the regularization is increased, and the
whole sweep restarts from stage N.  `fuel` bounds the number of restarts;
`none` stands for the nontermination of the unbounded C++ recursion,
never for an escaped exception. -/
def backward_pass (solveOk : ℕ → ℚ → Bool) (growth base : ℚ) (N : ℕ) :
    ℕ → ℚ → Option ℚ
  | 0, _ => none
  | fuel+1, reg =>
    match backward_pass_stages solveOk reg (stagesDown N) with
    | Except.ok _ => some reg
    | Except.error _ =>
        backward_pass solveOk growth base N fuel
          (increase_regularization growth base reg)

/-- The Armijo acceptance test of `IterativeLQR::line_search`, with
eta = 1e-4: accept `alpha` when `m(alpha) <= m(0) + eta*alpha*m'(0)`. -/
def armijo_accept (m : ℚ → ℚ) (merit0 merit_der alpha : ℚ) : Bool :=
  decide (m alpha ≤ merit0 + (1/10000) * alpha * merit_der)

/-- The backtracking loop of `IterativeLQR::line_search`: try `alpha`,
stop at the first acceptance, halve the step while it stays at least
alpha_min = 1e-3; when the halved step would drop below 1e-3 the loop
exits with the last tried `alpha` not accepted. -/
def line_search_loop (accept : ℚ → Bool) : ℕ → ℚ → ℚ × Bool
  | 0, alpha => (alpha, false)
  | fuel+1, alpha =>
    if accept alpha then (alpha, true)
    else if alpha * (1/2) < 1/1000 then (alpha, false)
    else line_search_loop accept fuel (alpha * (1/2))

/-- The step sizes the loop can try, starting from alpha = 1 with shrink
factor 0.5 and alpha_min = 1e-3. -/
def tried_alphas : List ℚ :=
  [1, 1/2, 1/4, 1/8, 1/16, 1/32, 1/64, 1/128, 1/256, 1/512]

/-- Outcome of `line_search`: the trajectory installed in the solver, the
step size of the last forward pass, whether Armijo accepted it, and the
final accepted flag (forced to true by the soft accept). -/
structure LineSearchOutcome (T : Type) where
  traj : T
  alpha : ℚ
  armijo_ok : Bool
  accepted : Bool

/-- The tail of `IterativeLQR::line_search`: the solver trajectory is
replaced by the result of the last forward pass; when Armijo never fired
the result is soft-accepted (`accepted` forced to true) after having been
reported to the callback as not accepted.  `fpTraj alpha` stands for the
forward-pass trajectory computed at step size `alpha`. -/
def line_search (T : Type) (fpTraj : ℚ → T) (accept : ℚ → Bool) :
    LineSearchOutcome T :=
  let r := line_search_loop accept 10 1
  ⟨fpTraj r.1, r.1, r.2, true⟩

/-- Per-stage linearized dynamics of `IterativeLQR::Dynamics`:
Jacobians `A`, `B` and the defect `d = f(x,u) - xnext`. -/
structure Dynamics (nx nu : ℕ) where
  A : Matrix (Fin nx) (Fin nx) ℚ
  B : Matrix (Fin nx) (Fin nu) ℚ
  d : Fin nx → ℚ

/-- Per-stage `BackwardPassResult`: feedback `Lu`, feedforward `lu`, the
auxiliary feedforward field `lz`, and constraint multipliers `glam`. -/
structure BackwardPassResult (nx nu : ℕ) where
  Lu : Matrix (Fin nu) (Fin nx) ℚ
  lu : Fin nu → ℚ
  lz : Fin nu → ℚ
  glam : List ℚ

/-- The solution save of `backward_pass_iter`: `res.Lu`, `res.lu` and
`res.glam` are assigned from the KKT solution; no other field of the
result (in particular not `lz`) is touched. -/
def save_backward_pass_solution {nx nu : ℕ} (res : BackwardPassResult nx nu)
    (Lu : Matrix (Fin nu) (Fin nx) ℚ) (lu : Fin nu → ℚ) (glam : List ℚ) :
    BackwardPassResult nx nu :=
  { res with Lu := Lu, lu := lu, glam := glam }

/-- The state rollout of `forward_pass` (current version,
the forward-pass translation unit): column 0 copies the current state,
and stage i writes column i+1 as `xnext + (A + B*L)*dx + B*l + alpha*d`
with `l = alpha * lu` and `dx` the state deviation at stage i. -/
def forward_pass_xtrj {nx nu : ℕ} (dyn : ℕ → Dynamics nx nu)
    (bp : ℕ → BackwardPassResult nx nu) (xtrj : ℕ → Fin nx → ℚ)
    (alpha : ℚ) : ℕ → Fin nx → ℚ
  | 0 => xtrj 0
  | i+1 =>
    let dx := forward_pass_xtrj dyn bp xtrj alpha i - xtrj i
    let l := alpha • (bp i).lu
    xtrj (i+1) + ((dyn i).A + (dyn i).B * (bp i).Lu).mulVec dx
      + (dyn i).B.mulVec l + alpha • (dyn i).d

/-- The control update of `forward_pass_iter`: `ui + l + L*dx` with
`l = alpha * lu` and `dx = fp_x(i) - x(i)`. -/
def forward_pass_utrj {nx nu : ℕ} (dyn : ℕ → Dynamics nx nu)
    (bp : ℕ → BackwardPassResult nx nu) (xtrj : ℕ → Fin nx → ℚ)
    (utrj : ℕ → Fin nu → ℚ) (alpha : ℚ) (i : ℕ) : Fin nu → ℚ :=
  let dx := forward_pass_xtrj dyn bp xtrj alpha i - xtrj i
  let l := alpha • (bp i).lu
  utrj i + l + (bp i).Lu.mulVec dx

/-- `IterativeLQR::compute_merit_slope`: accumulate `lz . hu` over the
stages (note: the code reads the field `lz` of the backward-pass result,
not the saved feedforward `lu`), then subtract the weighted defect norm
and constraint violation. -/
def compute_merit_slope {nx nu : ℕ} (N : ℕ)
    (bp : ℕ → BackwardPassResult nx nu) (hu : ℕ → Fin nu → ℚ)
    (mu_f mu_c defect_norm constr_viol : ℚ) : ℚ :=
  (Finset.range N).sum (fun i => ∑ j, (bp i).lz j * hu i j)
    - mu_f * defect_norm - mu_c * constr_viol

/-- A zero backward-pass result.  (The older ilqr.cpp constructor
zero-fills the result; the constructor of the current version is not
among the sources.  Zero is the value of `lz` most favourable to the
claim, since no code path of the current backward pass writes `lz`.) -/
def bp_zero : BackwardPassResult 1 1 := ⟨0, 0, 0, []⟩

/-- The stage-0 result after the KKT save wrote the feedforward
`lu = 1`. -/
def bp_after_save : BackwardPassResult 1 1 :=
  save_backward_pass_solution bp_zero 0 (fun _ => 1) []

/-- The decomposition selector `_constr_decomp_type` of the constraint
handler. -/
inductive ConstrDecompType
  | Cod
  | Qr
  | Svd

/-- Result data of an Eigen decomposition of the stacked input matrix D
(an external collaborator): the rank reported after
`setThreshold(_svd_threshold)`, and the largest pivot — for SVD, the
largest singular value `singularValues()[0]`. -/
structure DecompResult where
  rank : ℕ
  maxPivot : ℚ

/-- The rank determination of `IterativeLQR::handle_constraints`: switch
on the configured decomposition, take that decomposition's rank, and
force the rank to 0 whenever the largest pivot is below the threshold. -/
def handle_constraints_rank (ty : ConstrDecompType) (svd_threshold : ℚ)
    (dec : ConstrDecompType → DecompResult) : ℕ :=
  match ty with
  | .Cod => if (dec .Cod).maxPivot < svd_threshold then 0 else (dec .Cod).rank
  | .Qr => if (dec .Qr).maxPivot < svd_threshold then 0 else (dec .Qr).rank
  | .Svd => if (dec .Svd).maxPivot < svd_threshold then 0 else (dec .Svd).rank

/-- Number of rows of the infeasible block `codQ2' * [C h]`: the stacked
block has `nc` rows of which the feasible part takes `rank`. -/
def infeasible_count (nc rank : ℕ) : ℕ := nc - rank

/-- `IterativeLQR::ConstraintToGo`: a row accumulator with a fixed
capacity chosen at construction.  A row pairs a row of C with the
matching entry of h; `rows` is the live block (`_C.topRows(_dim)`,
`_h.head(_dim)`). -/
structure ConstraintToGo where
  capacity : ℕ
  rows : List (List ℚ × ℚ)

/-- The `ConstraintToGo` constructor: capacity `c_max = nx*10`,
dimension 0. -/
def ConstraintToGo.init (nx : ℕ) : ConstraintToGo := ⟨nx * 10, []⟩

/-- `ConstraintToGo::dim`. -/
def ConstraintToGo.dim (c : ConstraintToGo) : ℕ := c.rows.length

/-- `ConstraintToGo::set`: replace the stored block and set `_dim` to the
number of supplied rows; the source performs no capacity check (a `todo`
comment marks the missing overflow check). -/
def ConstraintToGo.set (c : ConstraintToGo) (rs : List (List ℚ × ℚ)) :
    ConstraintToGo :=
  { c with rows := rs }

/-- Modelled from the spec: `ConstraintToGo::add`, whose body is not among
the sources (only its call sites are), pushes rows back into the
accumulator, i.e. appends them after the current block, again without a
capacity check. -/
def ConstraintToGo.add (c : ConstraintToGo) (r : List ℚ × ℚ) :
    ConstraintToGo :=
  { c with rows := c.rows ++ [r] }

/-- `ConstraintToGo::clear`: `_dim = 0`. -/
def ConstraintToGo.clear (c : ConstraintToGo) : ConstraintToGo :=
  { c with rows := [] }

/-- Infinity norm of a row of Cinf (`lpNorm<Eigen::Infinity>()`). -/
def linf_norm (c : List ℚ) : ℚ := c.foldr (fun a m => max |a| m) 0

/-- The drop test of `handle_constraints` for an infeasible row: the row
is of the form `0x = 0` when `|hinf_j| < 1e-9` and row j of Cinf has
infinity norm below 1e-9. -/
def drop_dependent_row (c : List ℚ) (hval : ℚ) : Bool :=
  decide (|hval| < 1/1000000000) && decide (linf_norm c < 1/1000000000)

/-- The push-back loop over the infeasible rows: linearly dependent rows
are dropped (with a warning), every other row is added to the
accumulator. -/
def push_infeasible_rows (ctg : ConstraintToGo) :
    List (List ℚ × ℚ) → ConstraintToGo
  | [] => ctg
  | r :: rest =>
    if drop_dependent_row r.1 r.2 then push_infeasible_rows ctg rest
    else push_infeasible_rows (ctg.add r) rest

/-- The tail of `handle_constraints`: clear the accumulator, then push the
surviving infeasible rows, to be handled at stage i-1. -/
def handle_constraints_infeasible (ctg : ConstraintToGo)
    (rows : List (List ℚ × ℚ)) : ConstraintToGo :=
  push_infeasible_rows ctg.clear rows

/-- The value-function update of `backward_pass_iter`:
`S = Hxx + Lu'*(Huu*Lu + Hux) + Hux'*Lu` followed by the explicit
symmetrization `S = 0.5*(S + S')`. -/
def value_S_update {nx nu : ℕ} (Hxx : Matrix (Fin nx) (Fin nx) ℚ)
    (Huu : Matrix (Fin nu) (Fin nu) ℚ) (Hux : Matrix (Fin nu) (Fin nx) ℚ)
    (Lu : Matrix (Fin nu) (Fin nx) ℚ) : Matrix (Fin nx) (Fin nx) ℚ :=
  let S := Hxx + Lu.transpose * (Huu * Lu + Hux) + Hux.transpose * Lu
  ((1 : ℚ)/2) • (S + S.transpose)

/-- A stage cost oracle: (x, u) to the cost value. -/
abbrev CostFn := List ℚ → List ℚ → ℚ

/-- Sum of squares (casadi `SX::sumsqr`, an external collaborator,
embedded by its documented meaning). -/
def sumsqr (v : List ℚ) : ℚ := (v.map fun a => a * a).sum

/-- The default intermediate cost `dfl_cost`: `0.5*sumsqr(u)`. -/
def dfl_cost : CostFn := fun _ u => (1/2) * sumsqr u

/-- The default final cost `dfl_cost_final`: `0.5*sumsqr(x)`. -/
def dfl_cost_final : CostFn := fun x _ => (1/2) * sumsqr x

/-- A default-constructed cost slot, before any setter ran. -/
def unset_cost : CostFn := fun _ _ => 0

/-- `IterativeLQR::setIntermediateCost`: assign `_cost[i]` for i < N. -/
def setIntermediateCost (N : ℕ) (cost : ℕ → CostFn) (inter : ℕ → CostFn) :
    ℕ → CostFn :=
  fun k => if k < N then inter k else cost k

/-- `IterativeLQR::setFinalCost`: assign `_cost.back()`, i.e. slot N. -/
def setFinalCost (N : ℕ) (cost : ℕ → CostFn) (fcost : CostFn) :
    ℕ → CostFn :=
  fun k => if k = N then fcost else cost k

/-- `IterativeLQR::set_default_cost`: install `dfl_cost` at every
intermediate node and `dfl_cost_final` at node N. -/
def set_default_cost (N : ℕ) (cost : ℕ → CostFn) : ℕ → CostFn :=
  setFinalCost N (setIntermediateCost N cost (fun _ => dfl_cost))
    dfl_cost_final

/-- The cost array right after the `IterativeLQR` constructor, whose body
ends with `set_default_cost()`. -/
def constructor_cost (N : ℕ) : ℕ → CostFn :=
  set_default_cost N (fun _ => unset_cost)

/-! ## Theorems -/

/-- C1 counterexample: at a feasible forward-pass result with merit 1,
merit slope +1 and step length 1 the solver stops, although neither
`|merit_der|/|merit| < 1e-9` nor `step_length/norm(u) < 1e-9` holds, so
the stopping set of the claim differs from the code's. -/
theorem should_stop_spec_counterexample :
    should_stop fp_cex 1 = true ∧
    ¬ (fp_cex.defect_norm ≤ 1/1000000 ∧
       fp_cex.constraint_violation ≤ 1/1000000 ∧
       (|fp_cex.merit_der| / |fp_cex.merit| < 1/1000000000 ∨
        fp_cex.step_length / 1 < 1/1000000000)) := by
  constructor
  · norm_num [should_stop, fp_cex]
  · norm_num [fp_cex]

/-- C1 (amended): the solver stops exactly when the latest accepted
forward-pass result is feasible (defect norm and constraint violation at
most 1e-6) and additionally either the signed normalized merit slope
satisfies `merit_der/merit > -1e-9` or the normalized step satisfies
`step_length/norm(u) < 1e-9`; whenever defect norm or constraint
violation exceeds 1e-6 it does not stop.  The hypotheses keep the two
divisions away from the 0 denominators where IEEE doubles and `ℚ`
differ. -/
theorem should_stop_code_iff (fp : ForwardPassResult) (un : ℚ)
    (hm : fp.merit ≠ 0) (hu : un ≠ 0) :
    should_stop fp un = true ↔
      (fp.constraint_violation ≤ 1/1000000 ∧ fp.defect_norm ≤ 1/1000000 ∧
       (fp.merit_der / fp.merit > -(1/1000000000) ∨
        fp.step_length / un < 1/1000000000)) := by
  unfold should_stop
  split_ifs with h1 h2 h3 h4
  · exact iff_of_false (by simp)
      (fun hc => absurd hc.1 (not_le.mpr h1))
  · exact iff_of_false (by simp)
      (fun hc => absurd hc.2.1 (not_le.mpr h2))
  · exact iff_of_true (by trivial)
      ⟨le_of_not_lt h1, le_of_not_lt h2, Or.inl h3⟩
  · exact iff_of_true (by trivial)
      ⟨le_of_not_lt h1, le_of_not_lt h2, Or.inr h4⟩
  · exact iff_of_false (by simp)
      (fun hc => hc.2.2.elim h3 h4)

/-- C1 witness: the amended characterization evaluated at a concrete
feasible input with merit 1, merit slope -1 and step length 1. -/
theorem should_stop_code_iff_witness :
    (fp_wit.merit ≠ 0 ∧ (1 : ℚ) ≠ 0) ∧
    (should_stop fp_wit 1 = true ↔
      (fp_wit.constraint_violation ≤ 1/1000000 ∧
       fp_wit.defect_norm ≤ 1/1000000 ∧
       (fp_wit.merit_der / fp_wit.merit > -(1/1000000000) ∨
        fp_wit.step_length / 1 < 1/1000000000))) := by
  refine ⟨⟨?_, ?_⟩, should_stop_code_iff fp_wit 1 ?_ ?_⟩ <;> norm_num [fp_wit]

/-- C6: in `handle_constraints`, for every decomposition choice, whenever
the largest pivot (for SVD, the largest singular value) is below the
configured threshold the rank is forced to 0, so the infeasible block
receives all `nc` rows of the stacked constraint. -/
theorem handle_constraints_rank_zero (ty : ConstrDecompType) (thr : ℚ)
    (dec : ConstrDecompType → DecompResult) (nc : ℕ)
    (hpiv : (dec ty).maxPivot < thr) :
    handle_constraints_rank ty thr dec = 0 ∧
    infeasible_count nc (handle_constraints_rank ty thr dec) = nc := by
  have h0 : handle_constraints_rank ty thr dec = 0 := by
    cases ty <;> simp [handle_constraints_rank, hpiv]
  exact ⟨h0, by simp [infeasible_count, h0]⟩

/-- C6 witness: a decomposition reporting rank 2 but with largest pivot 0
is collapsed to rank 0 under threshold 1, and all 3 stacked rows become
infeasible. -/
theorem handle_constraints_rank_zero_witness :
    ((fun _ => (⟨2, 0⟩ : DecompResult)) ConstrDecompType.Svd).maxPivot < 1 ∧
    (handle_constraints_rank ConstrDecompType.Svd 1 (fun _ => ⟨2, 0⟩) = 0 ∧
     infeasible_count 3
       (handle_constraints_rank ConstrDecompType.Svd 1 (fun _ => ⟨2, 0⟩))
         = 3) := by
  have hp : ((fun _ => (⟨2, 0⟩ : DecompResult)) ConstrDecompType.Svd).maxPivot
      < 1 := by
    show (0 : ℚ) < 1
    norm_num
  exact ⟨hp,
    handle_constraints_rank_zero ConstrDecompType.Svd 1 (fun _ => ⟨2, 0⟩) 3 hp⟩

lemma push_infeasible_rows_spec (rows : List (List ℚ × ℚ)) :
    ∀ ctg : ConstraintToGo, (push_infeasible_rows ctg rows).rows
      = ctg.rows ++ rows.filter (fun r => !(drop_dependent_row r.1 r.2)) := by
  induction rows with
  | nil => intro ctg; simp [push_infeasible_rows]
  | cons r rest ih =>
    intro ctg
    cases hd : drop_dependent_row r.1 r.2 with
    | true => simp [push_infeasible_rows, hd, ih, List.filter_cons]
    | false =>
      simp [push_infeasible_rows, hd, ih, ConstraintToGo.add, List.filter_cons]

/-- C7: the infeasible-row loop of `handle_constraints` keeps exactly the
rows that fail the drop test, in order (the accumulator, cleared first,
ends up holding them all: non-dropped rows are never lost), and a row is
dropped precisely when both `|hinf_j| < 1e-9` and the infinity norm of
row j of Cinf is below 1e-9. -/
theorem handle_constraints_infeasible_spec (ctg : ConstraintToGo)
    (rows : List (List ℚ × ℚ)) :
    (handle_constraints_infeasible ctg rows).rows
      = rows.filter (fun r => !(drop_dependent_row r.1 r.2)) ∧
    (∀ (c : List ℚ) (hval : ℚ), drop_dependent_row c hval = true ↔
      (|hval| < 1/1000000000 ∧ linf_norm c < 1/1000000000)) := by
  constructor
  · rw [handle_constraints_infeasible, push_infeasible_rows_spec]
    simp [ConstraintToGo.clear]
  · intro c hval
    simp [drop_dependent_row]

/-- C8 counterexample: with nx = 1 the accumulator is allocated for 10
rows, yet `set` with an 11-row block (reachable, e.g. from an 11-row
final constraint) makes the dimension 11, exceeding the capacity. -/
theorem constraint_to_go_capacity_counterexample :
    ¬ (((ConstraintToGo.init 1).set (List.replicate 11 ([0], 0))).dim
        ≤ (ConstraintToGo.init 1).capacity) := by
  simp [ConstraintToGo.init, ConstraintToGo.set, ConstraintToGo.dim]

/-- C8 (amended): the accumulator is constructed with fixed capacity
10*nx and dimension 0, but `set` and `add` track the dimension without
any capacity check (the source marks the overflow check as `todo`):
after `set` the dimension is exactly the number of supplied rows, and it
stays within the capacity iff that number is at most 10*nx. -/
theorem constraint_to_go_set_unchecked (nx : ℕ) (rs : List (List ℚ × ℚ))
    (r : List ℚ × ℚ) (c : ConstraintToGo) :
    (ConstraintToGo.init nx).capacity = 10 * nx ∧
    (ConstraintToGo.init nx).dim = 0 ∧
    ((ConstraintToGo.init nx).set rs).dim = rs.length ∧
    (c.set rs).capacity = c.capacity ∧
    (c.add r).dim = c.dim + 1 ∧
    (((ConstraintToGo.init nx).set rs).dim ≤ (ConstraintToGo.init nx).capacity
      ↔ rs.length ≤ 10 * nx) := by
  simp [ConstraintToGo.init, ConstraintToGo.set, ConstraintToGo.dim,
    ConstraintToGo.add, Nat.mul_comm]

lemma backward_pass_stages_error_eq (solveOk : ℕ → ℚ → Bool) (reg : ℚ)
    (l : List ℕ)
    (hfail : backward_pass_stages solveOk reg l ≠ Except.ok ()) :
    backward_pass_stages solveOk reg l = Except.error ⟨⟩ := by
  cases hres : backward_pass_stages solveOk reg l with
  | ok u => cases u; exact absurd hres hfail
  | error e => cases e; rfl

lemma floor_eq_max (base x : ℚ) : (if x < base then base else x) = max base x := by
  rcases lt_or_le x base with hx | hx
  · simp [hx, max_eq_left hx.le]
  · simp [not_lt.mpr hx, max_eq_right hx]

lemma backward_pass_sound (solveOk : ℕ → ℚ → Bool) (growth base : ℚ)
    (N : ℕ) :
    ∀ (fuel : ℕ) (reg r : ℚ),
      backward_pass solveOk growth base N fuel reg = some r →
      backward_pass_stages solveOk r (stagesDown N) = Except.ok () := by
  intro fuel
  induction fuel with
  | zero =>
    intro reg r hsome
    simp [backward_pass] at hsome
  | succ n ih =>
    intro reg r hsome
    simp only [backward_pass] at hsome
    cases hres : backward_pass_stages solveOk reg (stagesDown N) with
    | ok u =>
      cases u
      rw [hres] at hsome
      simp only [Option.some.injEq] at hsome
      rw [← hsome]
      exact hres
    | error e =>
      rw [hres] at hsome
      simp only at hsome
      exact ih _ _ hsome

/-- C2: a non-finite KKT solution at a backward-pass stage raises
`HessianIndefinite` and nothing else does; a failing sweep is caught in
`backward_pass`, which increases the regularization (reset to 1 when
below 1e-6, multiplied by the growth factor, floored at the base) and
restarts the whole sweep from stage N; and the error never escapes:
every state a run of `backward_pass` returns has completed all stages
without the exception. -/
theorem backward_pass_hessian_indefinite (solveOk : ℕ → ℚ → Bool)
    (growth base : ℚ) (N fuel : ℕ) (reg : ℚ)
    (hfail : backward_pass_stages solveOk reg (stagesDown N)
        ≠ Except.ok ()) :
    (∀ (i : ℕ) (r : ℚ),
        backward_pass_iter_kkt solveOk i r = Except.error ⟨⟩
          ↔ solveOk i r = false) ∧
    backward_pass_stages solveOk reg (stagesDown N) = Except.error ⟨⟩ ∧
    backward_pass solveOk growth base N (fuel+1) reg
      = backward_pass solveOk growth base N fuel
          (increase_regularization growth base reg) ∧
    increase_regularization growth base reg
      = max base ((if reg < 1/1000000 then 1 else reg) * growth) ∧
    (∀ (fuel' : ℕ) (reg' r : ℚ),
        backward_pass solveOk growth base N fuel' reg' = some r →
        backward_pass_stages solveOk r (stagesDown N) = Except.ok ()) := by
  have he := backward_pass_stages_error_eq solveOk reg (stagesDown N) hfail
  refine ⟨?_, he, ?_, ?_, backward_pass_sound solveOk growth base N⟩
  · intro i r
    unfold backward_pass_iter_kkt
    cases hs : solveOk i r <;> simp [hs]
  · simp only [backward_pass, he]
  · simp only [increase_regularization]
    exact floor_eq_max base _

/-- C2 witness: with an oracle whose KKT solve never returns finite
values, the failing one-stage sweep is caught, the regularization grows
from 0 to max(base, 10), and every returned state would have completed
the sweep. -/
theorem backward_pass_hessian_indefinite_witness :
    backward_pass_stages (fun _ _ => false) 0 (stagesDown 1)
        ≠ Except.ok () ∧
    ((∀ (i : ℕ) (r : ℚ),
        backward_pass_iter_kkt (fun _ _ => false) i r = Except.error ⟨⟩
          ↔ (fun _ _ => false : ℕ → ℚ → Bool) i r = false) ∧
     backward_pass_stages (fun _ _ => false) 0 (stagesDown 1)
        = Except.error ⟨⟩ ∧
     backward_pass (fun _ _ => false) 10 (1/1000000) 1 (3+1) 0
        = backward_pass (fun _ _ => false) 10 (1/1000000) 1 3
            (increase_regularization 10 (1/1000000) 0) ∧
     increase_regularization 10 (1/1000000) 0
        = max (1/1000000) ((if (0:ℚ) < 1/1000000 then 1 else 0) * 10) ∧
     (∀ (fuel' : ℕ) (reg' r : ℚ),
        backward_pass (fun _ _ => false) 10 (1/1000000) 1 fuel' reg'
          = some r →
        backward_pass_stages (fun _ _ => false) r (stagesDown 1)
          = Except.ok ())) := by
  have hf : backward_pass_stages (fun _ _ => false) 0 (stagesDown 1)
      ≠ Except.ok () := by
    simp [backward_pass_stages, backward_pass_iter_kkt, stagesDown]
  exact ⟨hf,
    backward_pass_hessian_indefinite (fun _ _ => false) 10 (1/1000000)
      1 3 0 hf⟩

lemma loop_succ_accept (accept : ℚ → Bool) (fuel : ℕ) (a : ℚ)
    (h : accept a = true) :
    line_search_loop accept (fuel+1) a = (a, true) := by
  simp [line_search_loop, h]

lemma loop_succ_stop (accept : ℚ → Bool) (fuel : ℕ) (a : ℚ)
    (h : accept a = false) (h2 : a * (1/2) < 1/1000) :
    line_search_loop accept (fuel+1) a = (a, false) := by
  have hstep : line_search_loop accept (fuel+1) a =
      if accept a then (a, true)
      else if a * (1/2) < 1/1000 then (a, false)
      else line_search_loop accept fuel (a * (1/2)) := rfl
  rw [hstep, if_neg (by simp [h]), if_pos h2]

lemma loop_succ_cont (accept : ℚ → Bool) (fuel : ℕ) (a : ℚ)
    (h : accept a = false) (h2 : ¬ (a * (1/2) < 1/1000)) :
    line_search_loop accept (fuel+1) a
      = line_search_loop accept fuel (a * (1/2)) := by
  have hstep : line_search_loop accept (fuel+1) a =
      if accept a then (a, true)
      else if a * (1/2) < 1/1000 then (a, false)
      else line_search_loop accept fuel (a * (1/2)) := rfl
  rw [hstep, if_neg (by simp [h]), if_neg h2]

lemma line_search_loop_find (accept : ℚ → Bool) :
    line_search_loop accept 10 1 =
      (match tried_alphas.find? accept with
       | some a => (a, true)
       | none => ((1:ℚ)/512, false)) := by
  rw [show (10:ℕ) = 9+1 from rfl]
  cases h0 : accept 1 with
  | true =>
    rw [loop_succ_accept accept 9 1 h0]
    simp only [tried_alphas, List.find?, h0]
  | false =>
  rw [loop_succ_cont accept 9 1 h0 (by norm_num),
      show (1:ℚ) * (1/2) = 1/2 by norm_num, show (9:ℕ) = 8+1 from rfl]
  cases h1 : accept (1/2) with
  | true =>
    rw [loop_succ_accept accept 8 (1/2) h1]
    simp only [tried_alphas, List.find?, h0, h1]
  | false =>
  rw [loop_succ_cont accept 8 (1/2) h1 (by norm_num),
      show (1:ℚ)/2 * (1/2) = 1/4 by norm_num, show (8:ℕ) = 7+1 from rfl]
  cases h2 : accept (1/4) with
  | true =>
    rw [loop_succ_accept accept 7 (1/4) h2]
    simp only [tried_alphas, List.find?, h0, h1, h2]
  | false =>
  rw [loop_succ_cont accept 7 (1/4) h2 (by norm_num),
      show (1:ℚ)/4 * (1/2) = 1/8 by norm_num, show (7:ℕ) = 6+1 from rfl]
  cases h3 : accept (1/8) with
  | true =>
    rw [loop_succ_accept accept 6 (1/8) h3]
    simp only [tried_alphas, List.find?, h0, h1, h2, h3]
  | false =>
  rw [loop_succ_cont accept 6 (1/8) h3 (by norm_num),
      show (1:ℚ)/8 * (1/2) = 1/16 by norm_num, show (6:ℕ) = 5+1 from rfl]
  cases h4 : accept (1/16) with
  | true =>
    rw [loop_succ_accept accept 5 (1/16) h4]
    simp only [tried_alphas, List.find?, h0, h1, h2, h3, h4]
  | false =>
  rw [loop_succ_cont accept 5 (1/16) h4 (by norm_num),
      show (1:ℚ)/16 * (1/2) = 1/32 by norm_num, show (5:ℕ) = 4+1 from rfl]
  cases h5 : accept (1/32) with
  | true =>
    rw [loop_succ_accept accept 4 (1/32) h5]
    simp only [tried_alphas, List.find?, h0, h1, h2, h3, h4, h5]
  | false =>
  rw [loop_succ_cont accept 4 (1/32) h5 (by norm_num),
      show (1:ℚ)/32 * (1/2) = 1/64 by norm_num, show (4:ℕ) = 3+1 from rfl]
  cases h6 : accept (1/64) with
  | true =>
    rw [loop_succ_accept accept 3 (1/64) h6]
    simp only [tried_alphas, List.find?, h0, h1, h2, h3, h4, h5, h6]
  | false =>
  rw [loop_succ_cont accept 3 (1/64) h6 (by norm_num),
      show (1:ℚ)/64 * (1/2) = 1/128 by norm_num, show (3:ℕ) = 2+1 from rfl]
  cases h7 : accept (1/128) with
  | true =>
    rw [loop_succ_accept accept 2 (1/128) h7]
    simp only [tried_alphas, List.find?, h0, h1, h2, h3, h4, h5, h6, h7]
  | false =>
  rw [loop_succ_cont accept 2 (1/128) h7 (by norm_num),
      show (1:ℚ)/128 * (1/2) = 1/256 by norm_num, show (2:ℕ) = 1+1 from rfl]
  cases h8 : accept (1/256) with
  | true =>
    rw [loop_succ_accept accept 1 (1/256) h8]
    simp only [tried_alphas, List.find?, h0, h1, h2, h3, h4, h5, h6, h7, h8]
  | false =>
  rw [loop_succ_cont accept 1 (1/256) h8 (by norm_num),
      show (1:ℚ)/256 * (1/2) = 1/512 by norm_num, show (1:ℕ) = 0+1 from rfl]
  cases h9 : accept (1/512) with
  | true =>
    rw [loop_succ_accept accept 0 (1/512) h9]
    simp only [tried_alphas, List.find?, h0, h1, h2, h3, h4, h5, h6, h7, h8, h9]
  | false =>
    rw [loop_succ_stop accept 0 (1/512) h9 (by norm_num)]
    simp only [tried_alphas, List.find?, h0, h1, h2, h3, h4, h5, h6, h7, h8, h9]

/-- C3: the line search tries the step sizes 1, 0.5, 0.25, ..., all at
least alpha_min = 1e-3; it returns the first one accepted by the Armijo
test `m(alpha) <= m(0) + 1e-4*alpha*m'(0)`, and when none is accepted it
keeps the last tried step 1/512 with the non-acceptance recorded; in
every case the solver trajectory becomes the trajectory of the last
forward pass, and the final accepted flag is forced to true (soft
accept). -/
theorem line_search_backtracking (T : Type) (fpTraj : ℚ → T)
    (m : ℚ → ℚ) (merit0 merit_der : ℚ) :
    tried_alphas
      = [1, 1/2, 1/4, 1/8, 1/16, 1/32, 1/64, 1/128, 1/256, 1/512] ∧
    (tried_alphas.all fun a => decide ((1:ℚ)/1000 ≤ a)) = true ∧
    (∀ a : ℚ, armijo_accept m merit0 merit_der a = true ↔
        m a ≤ merit0 + (1/10000) * a * merit_der) ∧
    line_search_loop (armijo_accept m merit0 merit_der) 10 1 =
      (match tried_alphas.find? (armijo_accept m merit0 merit_der) with
       | some a => (a, true)
       | none => ((1:ℚ)/512, false)) ∧
    (line_search T fpTraj (armijo_accept m merit0 merit_der)).traj
      = fpTraj
          (line_search_loop (armijo_accept m merit0 merit_der) 10 1).1 ∧
    (line_search T fpTraj (armijo_accept m merit0 merit_der)).armijo_ok
      = (line_search_loop (armijo_accept m merit0 merit_der) 10 1).2 ∧
    (line_search T fpTraj (armijo_accept m merit0 merit_der)).accepted
      = true := by
  refine ⟨rfl, by norm_num [tried_alphas], ?_, line_search_loop_find _,
    rfl, rfl, rfl⟩
  intro a
  simp [armijo_accept]

/-- C4: stage i of the forward pass (current version) updates the
candidate trajectory by `dx_i = fpx_i - x_i`,
`fpu_i = u_i + alpha*l_i + L_i*dx_i` and
`fpx_{i+1} = x_{i+1} + (A_i + B_i*L_i)*dx_i + B_i*(alpha*l_i) +
alpha*d_i`: the defect enters multiplied by alpha. -/
theorem forward_pass_iter_update {nx nu : ℕ} (dyn : ℕ → Dynamics nx nu)
    (bp : ℕ → BackwardPassResult nx nu) (xtrj : ℕ → Fin nx → ℚ)
    (utrj : ℕ → Fin nu → ℚ) (alpha : ℚ) (i : ℕ) :
    forward_pass_utrj dyn bp xtrj utrj alpha i
      = utrj i + alpha • (bp i).lu
        + (bp i).Lu.mulVec
            (forward_pass_xtrj dyn bp xtrj alpha i - xtrj i) ∧
    forward_pass_xtrj dyn bp xtrj alpha (i+1)
      = xtrj (i+1)
        + ((dyn i).A + (dyn i).B * (bp i).Lu).mulVec
            (forward_pass_xtrj dyn bp xtrj alpha i - xtrj i)
        + (dyn i).B.mulVec (alpha • (bp i).lu)
        + alpha • (dyn i).d := by
  constructor
  · simp [forward_pass_utrj]
  · simp [forward_pass_xtrj]

/-- C5: evaluation of `compute_merit_slope` at the failing input.  With
one stage, the backward pass having saved the feedforward `lu = 1` and
the input gradient `hu = 1`, the code returns 0 because it sums over the
never-written field `lz` (still 0), while the claimed value built from
the saved feedforward `lu` is 1. -/
theorem compute_merit_slope_stale_lz :
    compute_merit_slope 1 (fun _ => bp_after_save) (fun _ _ => 1) 0 0 0 0
      = 0 ∧
    bp_after_save.lu = (fun _ => 1) ∧
    bp_after_save.lz = 0 ∧
    (Finset.range 1).sum (fun _ => ∑ j, bp_after_save.lu j * (1:ℚ))
        - 0 * 0 - 0 * 0 = 1 := by
  refine ⟨?_, rfl, rfl, ?_⟩
  · simp [compute_merit_slope, bp_after_save, bp_zero,
      save_backward_pass_solution]
  · simp [bp_after_save, bp_zero, save_backward_pass_solution]

/-- C9: the value-function matrix written by `backward_pass_iter` is
symmetric in exact arithmetic, because the update
`S = Hxx + Lu'*(Huu*Lu + Hux) + Hux'*Lu` is followed by the explicit
symmetrization `S = 0.5*(S + S')`. -/
theorem value_S_update_symmetric {nx nu : ℕ}
    (Hxx : Matrix (Fin nx) (Fin nx) ℚ) (Huu : Matrix (Fin nu) (Fin nu) ℚ)
    (Hux : Matrix (Fin nu) (Fin nx) ℚ) (Lu : Matrix (Fin nu) (Fin nx) ℚ) :
    (value_S_update Hxx Huu Hux Lu).transpose
      = value_S_update Hxx Huu Hux Lu := by
  simp only [value_S_update]
  rw [transpose_smul, transpose_add, transpose_transpose]
  rw [add_comm (Hxx + Lu.transpose * (Huu * Lu + Hux) + Hux.transpose * Lu).transpose]

/-- C10: right after the `IterativeLQR` constructor (which ends by calling
`set_default_cost`), every intermediate cost is `0.5*sumsqr(u)` and the
final cost is `0.5*sumsqr(x)`, before any user cost setter ran. -/
theorem constructor_cost_default (N : ℕ) (k : Fin N) (x u : List ℚ) :
    constructor_cost N k.val x u = (1/2) * sumsqr u ∧
    constructor_cost N N x u = (1/2) * sumsqr x := by
  have hk : (k : ℕ) < N := k.isLt
  constructor
  · simp [constructor_cost, set_default_cost, setFinalCost,
      setIntermediateCost, hk, Nat.ne_of_lt hk, dfl_cost]
  · simp [constructor_cost, set_default_cost, setFinalCost, dfl_cost_final]

end IterativeLQR
